import Mathlib

/-!
Verification of the EEG dashboard core (severity scoring, playback and
interpolation engine, row filtering, gauge ranges, trend alerts) against
its JavaScript source.  JavaScript numbers are modelled by the type `JVal`
(a rational, or one of the non-finite sentinels NaN / Infinity / -Infinity);
the coercion `Number(v) || 0` performed by the source on each input field is
modelled by `numOr0`.  Playback state is modelled by the record `State` and
the scheduler tick and button handlers by explicit state-transition
functions.
-/

/-- A JavaScript number: NaN, +Infinity, -Infinity, or a finite value
(modelled as a rational; the source only ever manipulates values obtained
from decimal literals and field arithmetic). -/
inductive JVal where
  | nan : JVal
  | inf : JVal
  | ninf : JVal
  | fin : ℚ → JVal
deriving DecidableEq

/-- JavaScript unary minus. -/
def jneg : JVal → JVal
  | .nan => .nan
  | .inf => .ninf
  | .ninf => .inf
  | .fin a => .fin (-a)

/-- JavaScript addition: NaN is absorbing, Infinity + (-Infinity) is NaN. -/
def jadd : JVal → JVal → JVal
  | .nan, _ => .nan
  | _, .nan => .nan
  | .inf, .ninf => .nan
  | .ninf, .inf => .nan
  | .inf, _ => .inf
  | _, .inf => .inf
  | .ninf, _ => .ninf
  | _, .ninf => .ninf
  | .fin a, .fin b => .fin (a + b)

/-- JavaScript subtraction `a - b`. -/
def jsub (a b : JVal) : JVal := jadd a (jneg b)

/-- JavaScript multiplication: NaN absorbing, Infinity * 0 is NaN. -/
def jmul : JVal → JVal → JVal
  | .nan, _ => .nan
  | _, .nan => .nan
  | .inf, .inf => .inf
  | .inf, .ninf => .ninf
  | .ninf, .inf => .ninf
  | .ninf, .ninf => .inf
  | .inf, .fin b => if b = 0 then .nan else if 0 < b then .inf else .ninf
  | .fin a, .inf => if a = 0 then .nan else if 0 < a then .inf else .ninf
  | .ninf, .fin b => if b = 0 then .nan else if 0 < b then .ninf else .inf
  | .fin a, .ninf => if a = 0 then .nan else if 0 < a then .ninf else .inf
  | .fin a, .fin b => .fin (a * b)

/-- JavaScript division: NaN absorbing, Infinity / Infinity is NaN,
`x / 0` is a signed infinity (NaN for `0 / 0`), `x / Infinity` is zero
(the sign of JavaScript's -0 is not observable in this program, so -0 is
identified with 0). -/
def jdiv : JVal → JVal → JVal
  | .nan, _ => .nan
  | _, .nan => .nan
  | .inf, .inf => .nan
  | .inf, .ninf => .nan
  | .ninf, .inf => .nan
  | .ninf, .ninf => .nan
  | .inf, .fin b => if b < 0 then .ninf else .inf
  | .ninf, .fin b => if b < 0 then .inf else .ninf
  | .fin _, .inf => .fin 0
  | .fin _, .ninf => .fin 0
  | .fin a, .fin b =>
    if b = 0 then (if a = 0 then .nan else if 0 < a then .inf else .ninf)
    else .fin (a / b)

/-- JavaScript `Math.max`: NaN if either argument is NaN. -/
def jmax : JVal → JVal → JVal
  | .nan, _ => .nan
  | _, .nan => .nan
  | .inf, _ => .inf
  | _, .inf => .inf
  | .ninf, b => b
  | a, .ninf => a
  | .fin a, .fin b => .fin (max a b)

/-- JavaScript `Math.min`: NaN if either argument is NaN. -/
def jmin : JVal → JVal → JVal
  | .nan, _ => .nan
  | _, .nan => .nan
  | .ninf, _ => .ninf
  | _, .ninf => .ninf
  | .inf, b => b
  | a, .inf => a
  | .fin a, .fin b => .fin (min a b)

/-- JavaScript `<` comparison: false whenever NaN is involved. -/
def jlt : JVal → JVal → Bool
  | .nan, _ => false
  | _, .nan => false
  | .inf, _ => false
  | .ninf, .ninf => false
  | .ninf, _ => true
  | .fin _, .inf => true
  | .fin _, .ninf => false
  | .fin a, .fin b => decide (a < b)

/-- Source helper `clamp = (x, a, b) => Math.max(a, Math.min(b, x))`. -/
def jclamp (x a b : JVal) : JVal := jmax a (jmin b x)

/-- Source coercion `Number(values?.alpha) || 0`: a missing field reads as
`undefined`, whose `Number` is NaN, and NaN is falsy, so missing and NaN
become 0; zero stays zero; finite and infinite numbers pass through. -/
def numOr0 : Option JVal → JVal
  | none => .fin 0
  | some .nan => .fin 0
  | some v => v

/-- The record of band powers read by `computeStrokeSeverity` (the `beta`
field of the source record is never read by it and is omitted). -/
structure Values where
  alpha : Option JVal
  theta : Option JVal
  delta : Option JVal
deriving DecidableEq

/-- Severity scorer, from `computeStrokeSeverity` in the source (identical
in all four dashboard variants). -/
def computeStrokeSeverity (values : Values) : JVal :=
  let alpha := numOr0 values.alpha
  let theta := numOr0 values.theta
  let delta := numOr0 values.delta
  let alphaLowTH : JVal := .fin 9
  let thetaHighTH : JVal := .fin 5.5
  let deltaHighTH : JVal := .fin 3.5
  let alphaLow := jclamp (jdiv (jsub alphaLowTH alpha) alphaLowTH) (.fin 0) (.fin 1)
  let thetaHigh := jclamp (jdiv (jsub theta thetaHighTH) thetaHighTH) (.fin 0) (.fin 1)
  let deltaHigh := jclamp (jdiv (jsub delta deltaHighTH) deltaHighTH) (.fin 0) (.fin 1)
  let safeAlpha := jmax alpha (.fin 0.1)
  let tar := jdiv theta safeAlpha
  let dar := jdiv delta safeAlpha
  let tarNorm := jclamp (jdiv (jsub tar (.fin 0.4)) (.fin 1.2)) (.fin 0) (.fin 1)
  let darNorm := jclamp (jdiv (jsub dar (.fin 0.2)) (.fin 1.0)) (.fin 0) (.fin 1)
  let severity :=
    jadd (jadd (jadd (jadd (jmul (.fin 0.15) alphaLow) (jmul (.fin 0.3) thetaHigh))
      (jmul (.fin 0.3) deltaHigh)) (jmul (.fin 0.15) tarNorm)) (jmul (.fin 0.1) darNorm)
  let severity2 := if jlt alpha theta && jlt alpha delta then jadd severity (.fin 0.2) else severity
  jclamp (jmul severity2 (.fin 1.4)) (.fin 0) (.fin 1)

/-- The value is a finite number lying in the closed interval `[0, 1]`. -/
def InUnit (v : JVal) : Prop := ∃ q : ℚ, v = .fin q ∧ 0 ≤ q ∧ q ≤ 1

theorem jadd_fin (a b : ℚ) : jadd (.fin a) (.fin b) = .fin (a + b) := rfl

theorem jmul_fin (a b : ℚ) : jmul (.fin a) (.fin b) = .fin (a * b) := rfl

theorem jsub_fin (a b : ℚ) : jsub (.fin a) (.fin b) = .fin (a - b) := by
  simp [jsub, jadd, jneg, sub_eq_add_neg]

theorem jdiv_fin (a b : ℚ) (hb : b ≠ 0) : jdiv (.fin a) (.fin b) = .fin (a / b) := by
  simp [jdiv, hb]

theorem jdiv_fin_inf (a : ℚ) : jdiv (.fin a) .inf = .fin 0 := rfl

theorem jclamp_fin01 (r : ℚ) : jclamp (.fin r) (.fin 0) (.fin 1) = .fin (max 0 (min 1 r)) := rfl

theorem numOr0_ne_nan (v : Option JVal) : numOr0 v ≠ .nan := by
  cases v with
  | none => simp [numOr0]
  | some w => cases w <;> simp [numOr0]

theorem jsub_fin_left_ne_nan (c : ℚ) {x : JVal} (hx : x ≠ .nan) : jsub (.fin c) x ≠ .nan := by
  cases x <;> simp_all [jsub, jadd, jneg]

theorem jsub_fin_right_ne_nan {x : JVal} (hx : x ≠ .nan) (c : ℚ) : jsub x (.fin c) ≠ .nan := by
  cases x <;> simp_all [jsub, jadd, jneg]

theorem jdiv_fin_denom_ne_nan {x : JVal} (hx : x ≠ .nan) {c : ℚ} (hc : c ≠ 0) :
    jdiv x (.fin c) ≠ .nan := by
  cases x with
  | nan => exact absurd rfl hx
  | inf => simp only [jdiv]; split <;> simp
  | ninf => simp only [jdiv]; split <;> simp
  | fin a => simp [jdiv, hc]

/-- Clamping any non-NaN value to `[0, 1]` yields a finite value in `[0, 1]`. -/
theorem jclamp01_spec {x : JVal} (hx : x ≠ .nan) :
    ∃ q : ℚ, jclamp x (.fin 0) (.fin 1) = .fin q ∧ 0 ≤ q ∧ q ≤ 1 := by
  cases x with
  | nan => exact absurd rfl hx
  | inf => exact ⟨max 0 1, rfl, le_max_left _ _, by norm_num⟩
  | ninf => exact ⟨0, rfl, le_refl _, by norm_num⟩
  | fin q =>
    exact ⟨max 0 (min 1 q), rfl, le_max_left _ _, max_le (by norm_num) (min_le_left _ _)⟩

/-- The `safeAlpha = Math.max(alpha, 0.1)` subterm is `Infinity` exactly when
`alpha` is, and otherwise a nonzero finite value. -/
theorem jmax_point1_spec (x : JVal) (hx : x ≠ .nan) :
    (x = .inf ∧ jmax x (.fin 0.1) = .inf) ∨
    (∃ c : ℚ, jmax x (.fin 0.1) = .fin c ∧ c ≠ 0) := by
  cases x with
  | nan => exact absurd rfl hx
  | inf => exact Or.inl ⟨rfl, rfl⟩
  | ninf => exact Or.inr ⟨0.1, rfl, by norm_num⟩
  | fin a =>
    refine Or.inr ⟨max a 0.1, rfl, ne_of_gt ?_⟩
    exact lt_of_lt_of_le (by norm_num) (le_max_right a 0.1)

/-- The ratio `theta / safeAlpha` is NaN only in the excluded
`Infinity / Infinity` configuration. -/
theorem ratio_ne_nan {alpha theta : JVal} (ha : alpha ≠ .nan) (ht : theta ≠ .nan)
    (h : ¬ (alpha = .inf ∧ (theta = .inf ∨ theta = .ninf))) :
    jdiv theta (jmax alpha (.fin 0.1)) ≠ .nan := by
  rcases jmax_point1_spec alpha ha with ⟨hai, hs⟩ | ⟨c, hs, hc⟩
  · rw [hs]
    cases theta with
    | nan => exact absurd rfl ht
    | inf => exact absurd ⟨hai, Or.inl rfl⟩ h
    | ninf => exact absurd ⟨hai, Or.inr rfl⟩ h
    | fin q => simp [jdiv]
  · rw [hs]
    exact jdiv_fin_denom_ne_nan ht hc

/-- C1 (counterexample): an input whose alpha and theta are both `Infinity`
passes the `Number(v) || 0` coercion unchanged, makes `tar = ∞ / ∞ = NaN`,
and NaN propagates through the weighted sum and the final clamp, so the
returned severity is NaN, which does not lie in `[0, 1]`. -/
theorem computeStrokeSeverity_not_in_unit_at_inf :
    ¬ InUnit (computeStrokeSeverity ⟨some .inf, some .inf, some (.fin 0)⟩) := by
  have h : computeStrokeSeverity ⟨some .inf, some .inf, some (.fin 0)⟩ = .nan := by
    norm_num [computeStrokeSeverity, numOr0, jclamp, jmax, jmin, jdiv, jsub, jadd, jneg, jmul, jlt]
  intro hcon
  rw [h] at hcon
  obtain ⟨q, hq, -, -⟩ := hcon
  exact JVal.noConfusion hq

/-- C1 (amended): for every input record except those whose alpha coerces to
`+Infinity` while theta or delta coerces to an infinity (where the result is
NaN), the severity returned by `computeStrokeSeverity` is a finite value in
the closed interval `[0, 1]`. -/
theorem computeStrokeSeverity_in_unit (values : Values)
    (h : ¬ (numOr0 values.alpha = .inf ∧
            ((numOr0 values.theta = .inf ∨ numOr0 values.theta = .ninf) ∨
             (numOr0 values.delta = .inf ∨ numOr0 values.delta = .ninf)))) :
    InUnit (computeStrokeSeverity values) := by
  have hαn : numOr0 values.alpha ≠ .nan := numOr0_ne_nan _
  have hθn : numOr0 values.theta ≠ .nan := numOr0_ne_nan _
  have hδn : numOr0 values.delta ≠ .nan := numOr0_ne_nan _
  have hθside : ¬ (numOr0 values.alpha = .inf ∧
      (numOr0 values.theta = .inf ∨ numOr0 values.theta = .ninf)) := by
    intro hcon
    exact h ⟨hcon.1, Or.inl hcon.2⟩
  have hδside : ¬ (numOr0 values.alpha = .inf ∧
      (numOr0 values.delta = .inf ∨ numOr0 values.delta = .ninf)) := by
    intro hcon
    exact h ⟨hcon.1, Or.inr hcon.2⟩
  obtain ⟨q1, e1, -, -⟩ :=
    jclamp01_spec (jdiv_fin_denom_ne_nan (jsub_fin_left_ne_nan 9 hαn) (by norm_num : (9:ℚ) ≠ 0))
  obtain ⟨q2, e2, -, -⟩ :=
    jclamp01_spec (jdiv_fin_denom_ne_nan (jsub_fin_right_ne_nan hθn 5.5)
      (by norm_num : (5.5:ℚ) ≠ 0))
  obtain ⟨q3, e3, -, -⟩ :=
    jclamp01_spec (jdiv_fin_denom_ne_nan (jsub_fin_right_ne_nan hδn 3.5)
      (by norm_num : (3.5:ℚ) ≠ 0))
  obtain ⟨q4, e4, -, -⟩ :=
    jclamp01_spec (jdiv_fin_denom_ne_nan
      (jsub_fin_right_ne_nan (ratio_ne_nan hαn hθn hθside) 0.4) (by norm_num : (1.2:ℚ) ≠ 0))
  obtain ⟨q5, e5, -, -⟩ :=
    jclamp01_spec (jdiv_fin_denom_ne_nan
      (jsub_fin_right_ne_nan (ratio_ne_nan hαn hδn hδside) 0.2) (by norm_num : (1.0:ℚ) ≠ 0))
  simp only [computeStrokeSeverity]
  rw [e1, e2, e3, e4, e5]
  simp only [jmul_fin, jadd_fin]
  cases hbc : jlt (numOr0 values.alpha) (numOr0 values.theta) &&
      jlt (numOr0 values.alpha) (numOr0 values.delta) <;>
    simp only [hbc, Bool.false_eq_true, if_false, if_true, jadd_fin, jmul_fin, jclamp_fin01] <;>
    exact ⟨_, rfl, le_max_left _ _, max_le (by norm_num) (min_le_left _ _)⟩

/-- C1 (witness): a concrete input satisfying the amended hypothesis. -/
theorem computeStrokeSeverity_in_unit_witness :
    InUnit (computeStrokeSeverity ⟨some (.fin 2), some (.fin 3), none⟩) :=
  computeStrokeSeverity_in_unit ⟨some (.fin 2), some (.fin 3), none⟩ (by simp [numOr0])

/-- The source's `clamp` on finite values. -/
def clampQ (x a b : ℚ) : ℚ := max a (min b x)

/-- The body of `computeStrokeSeverity` specialised to finite inputs: plain
rational arithmetic, line for line the same formula. -/
def severityQ (alpha theta delta : ℚ) : ℚ :=
  let alphaLow := clampQ ((9 - alpha) / 9) 0 1
  let thetaHigh := clampQ ((theta - 5.5) / 5.5) 0 1
  let deltaHigh := clampQ ((delta - 3.5) / 3.5) 0 1
  let safeAlpha := max alpha 0.1
  let tar := theta / safeAlpha
  let dar := delta / safeAlpha
  let tarNorm := clampQ ((tar - 0.4) / 1.2) 0 1
  let darNorm := clampQ ((dar - 0.2) / 1.0) 0 1
  let severity :=
    0.15 * alphaLow + 0.3 * thetaHigh + 0.3 * deltaHigh + 0.15 * tarNorm + 0.1 * darNorm
  let severity2 := if alpha < theta ∧ alpha < delta then severity + 0.2 else severity
  clampQ (severity2 * 1.4) 0 1

/-- On finite inputs the JS-number scorer computes exactly the rational
formula `severityQ`. -/
theorem computeStrokeSeverity_fin (a t d : ℚ) :
    computeStrokeSeverity ⟨some (.fin a), some (.fin t), some (.fin d)⟩ =
      .fin (severityQ a t d) := by
  have hsafe : max a (0.1 : ℚ) ≠ 0 :=
    ne_of_gt (lt_of_lt_of_le (by norm_num) (le_max_right a 0.1))
  simp only [computeStrokeSeverity, severityQ, numOr0, jclamp, clampQ]
  rw [jsub_fin, jdiv_fin _ _ (by norm_num : (9:ℚ) ≠ 0),
    jsub_fin, jdiv_fin _ _ (by norm_num : (5.5:ℚ) ≠ 0),
    jsub_fin, jdiv_fin _ _ (by norm_num : (3.5:ℚ) ≠ 0)]
  rw [show jmax (JVal.fin a) (.fin 0.1) = .fin (max a 0.1) from rfl]
  rw [jdiv_fin _ _ hsafe, jdiv_fin _ _ hsafe]
  rw [jsub_fin, jdiv_fin _ _ (by norm_num : (1.2:ℚ) ≠ 0),
    jsub_fin, jdiv_fin _ _ (by norm_num : (1.0:ℚ) ≠ 0)]
  simp only [jmin, jmax, jmul_fin, jadd_fin, jlt]
  by_cases h1 : a < t <;> by_cases h2 : a < d <;>
    simp [h1, h2, jmul_fin, jadd_fin, jmin, jmax]

theorem clampQ_mono {x y a b : ℚ} (h : x ≤ y) : clampQ x a b ≤ clampQ y a b :=
  max_le_max le_rfl (min_le_min le_rfl h)

/-- Decreasing alpha (with theta, delta fixed and non-negative) never
decreases the rational severity formula. -/
theorem severityQ_anti (a1 a2 t d : ℚ) (h0 : 0 ≤ a2) (h21 : a2 ≤ a1)
    (ht : 0 ≤ t) (hd : 0 ≤ d) : severityQ a1 t d ≤ severityQ a2 t d := by
  have hs2pos : (0 : ℚ) < max a2 0.1 := lt_of_lt_of_le (by norm_num) (le_max_right _ _)
  have hsa : max a2 0.1 ≤ max a1 0.1 := max_le_max h21 le_rfl
  have hAL : clampQ ((9 - a1) / 9) 0 1 ≤ clampQ ((9 - a2) / 9) 0 1 :=
    clampQ_mono ((div_le_div_iff_of_pos_right (by norm_num)).mpr (by linarith))
  have hT : t / max a1 0.1 ≤ t / max a2 0.1 := div_le_div_of_nonneg_left ht hs2pos hsa
  have hD : d / max a1 0.1 ≤ d / max a2 0.1 := div_le_div_of_nonneg_left hd hs2pos hsa
  have hTN : clampQ ((t / max a1 0.1 - 0.4) / 1.2) 0 1 ≤
      clampQ ((t / max a2 0.1 - 0.4) / 1.2) 0 1 :=
    clampQ_mono ((div_le_div_iff_of_pos_right (by norm_num)).mpr (by linarith))
  have hDN : clampQ ((d / max a1 0.1 - 0.2) / 1.0) 0 1 ≤
      clampQ ((d / max a2 0.1 - 0.2) / 1.0) 0 1 :=
    clampQ_mono ((div_le_div_iff_of_pos_right (by norm_num)).mpr (by linarith))
  simp only [severityQ]
  split_ifs with hb1 hb2 hb2
  · exact clampQ_mono (by linarith)
  · exact absurd ⟨lt_of_le_of_lt h21 hb1.1, lt_of_le_of_lt h21 hb1.2⟩ hb2
  · exact clampQ_mono (by linarith)
  · exact clampQ_mono (by linarith)

/-- C2 (confirmed): for fixed non-negative theta and delta and alpha values
`0 ≤ a2 ≤ a1 ≤ 9`, the severity at the smaller alpha is at least the severity
at the larger alpha — decreasing alpha never decreases the score. -/
theorem computeStrokeSeverity_antitone_alpha (a1 a2 t d : ℚ)
    (h0 : 0 ≤ a2) (h21 : a2 ≤ a1) (h9 : a1 ≤ 9) (ht : 0 ≤ t) (hd : 0 ≤ d) :
    ∃ q1 q2 : ℚ,
      computeStrokeSeverity ⟨some (.fin a1), some (.fin t), some (.fin d)⟩ = .fin q1 ∧
      computeStrokeSeverity ⟨some (.fin a2), some (.fin t), some (.fin d)⟩ = .fin q2 ∧
      q1 ≤ q2 :=
  ⟨severityQ a1 t d, severityQ a2 t d, computeStrokeSeverity_fin a1 t d,
    computeStrokeSeverity_fin a2 t d, severityQ_anti a1 a2 t d h0 h21 ht hd⟩

/-- C2 (witness): the monotonicity theorem applied at alpha 9 and 0 with
theta = delta = 1. -/
theorem computeStrokeSeverity_antitone_alpha_witness :
    ∃ q1 q2 : ℚ,
      computeStrokeSeverity ⟨some (.fin 9), some (.fin 1), some (.fin 1)⟩ = .fin q1 ∧
      computeStrokeSeverity ⟨some (.fin 0), some (.fin 1), some (.fin 1)⟩ = .fin q2 ∧
      q1 ≤ q2 :=
  computeStrokeSeverity_antitone_alpha 9 0 1 1 (by norm_num) (by norm_num) (by norm_num)
    (by norm_num) (by norm_num)

/-- Replace a NaN or missing field by 0, leaving every other value (finite
or infinite) unchanged — what `Number(v) || 0` actually does apart from
the identity on finite nonzero values. -/
def nanCoerceField : Option JVal → Option JVal
  | none => some (.fin 0)
  | some .nan => some (.fin 0)
  | some v => some v

/-- Modelled from the spec: the pointwise finite-coercion of the claim, which
sends every non-finite value (NaN, `Infinity`, `-Infinity`) and every missing
field to 0 and keeps finite values. -/
def finCoerceField : Option JVal → Option JVal
  | some (.fin q) => some (.fin q)
  | _ => some (.fin 0)

/-- Pointwise `nanCoerceField` on the three fields read by the scorer. -/
def nanCoerce (v : Values) : Values :=
  ⟨nanCoerceField v.alpha, nanCoerceField v.theta, nanCoerceField v.delta⟩

/-- Pointwise `finCoerceField` on the three fields read by the scorer. -/
def finCoerce (v : Values) : Values :=
  ⟨finCoerceField v.alpha, finCoerceField v.theta, finCoerceField v.delta⟩

theorem numOr0_nanCoerceField (v : Option JVal) : numOr0 (nanCoerceField v) = numOr0 v := by
  cases v with
  | none => rfl
  | some w => cases w <;> rfl

/-- C3 (counterexample): an input with alpha = `Infinity` is NOT scored as if
alpha were 0: the code passes the infinity through (scoring it 0), while the
claimed finite-coercion maps it to 0 (scoring it 0.21). -/
theorem computeStrokeSeverity_ne_finCoerce :
    computeStrokeSeverity ⟨some .inf, none, none⟩ ≠
      computeStrokeSeverity (finCoerce ⟨some .inf, none, none⟩) := by
  have h1 : computeStrokeSeverity ⟨some .inf, none, none⟩ = .fin 0 := by
    norm_num [computeStrokeSeverity, numOr0, jclamp, jmax, jmin, jdiv, jsub, jadd, jneg, jmul, jlt]
  have h2 : computeStrokeSeverity (finCoerce ⟨some .inf, none, none⟩) = .fin 0.21 := by
    norm_num [computeStrokeSeverity, finCoerce, finCoerceField, numOr0, jclamp, jmax, jmin,
      jdiv, jsub, jadd, jneg, jmul, jlt]
  rw [h1, h2]
  intro hcon
  have : (0 : ℚ) = 0.21 := JVal.fin.inj hcon
  norm_num at this

/-- C3 (amended): only NaN and missing field values are substituted with 0
before the severity formula is applied; infinite values pass through.  For
every input the result equals `computeStrokeSeverity` applied to the
pointwise NaN/missing-to-0 coercion of that input (and the model function is
total, so no error is ever raised). -/
theorem computeStrokeSeverity_nanCoerce (v : Values) :
    computeStrokeSeverity (nanCoerce v) = computeStrokeSeverity v := by
  obtain ⟨a, t, d⟩ := v
  simp only [computeStrokeSeverity, nanCoerce]
  rw [numOr0_nanCoerceField, numOr0_nanCoerceField, numOr0_nanCoerceField]

/-- Source helper `Number.isFinite(v)`: true only for finite numbers. -/
def isFiniteNum : JVal → Bool
  | .fin _ => true
  | _ => false

/-- Source helper `safe = (v) => (Number.isFinite(v) ? v : 0)`. -/
def safe (v : JVal) : JVal := if isFiniteNum v then v else .fin 0

/-- Source helper `lerp = (a, b, t) => a + (b - a) * t`, on JavaScript
numbers: the cited variant's loader stores `Number(r["Alpha"])` with no
`|| 0`, so a row's field can be NaN and must be interpolated as such. -/
def lerp (a b t : JVal) : JVal := jadd a (jmul (jsub b a) t)

/-- Sampling one numeric field of the current subject series, from the
render path `target = Math.min(i + step, current.length - 1)` (step = 1),
`A = current[i]`, `B = current[target]`, `value = safe(lerp(A.field,
B.field, tt))`: the series is abstracted to the list of that field's
values; an out-of-range index (never produced by the playback cursor)
defaults to NaN. -/
def sampleField (current : List JVal) (i : ℕ) (tt : JVal) : JVal :=
  let target := min (i + 1) (current.length - 1)
  safe (lerp (current.getD i .nan) (current.getD target .nan) tt)

theorem lerp_fin_fin_zero (a b : ℚ) : lerp (.fin a) (.fin b) (.fin 0) = .fin a := by
  simp [lerp, jsub_fin, jmul_fin, jadd_fin]

theorem lerp_fin_fin_one (a b : ℚ) : lerp (.fin a) (.fin b) (.fin 1) = .fin b := by
  simp only [lerp, jsub_fin, jmul_fin, jadd_fin, mul_one]
  congr 1
  ring

/-- With a non-finite bracketing value, the interpolant at fraction 0 is
non-finite (NaN via `(b - a) * 0` or the NaN sum) and `safe` turns it
into 0. -/
theorem safe_lerp_nonfin_zero (a b : JVal)
    (h : isFiniteNum a = false ∨ isFiniteNum b = false) :
    safe (lerp a b (.fin 0)) = .fin 0 := by
  cases a <;> cases b <;>
    simp_all [safe, isFiniteNum, lerp, jsub, jadd, jneg, jmul]

/-- With a non-finite bracketing value, the interpolant at fraction 1 is
non-finite and `safe` turns it into 0. -/
theorem safe_lerp_nonfin_one (a b : JVal)
    (h : isFiniteNum a = false ∨ isFiniteNum b = false) :
    safe (lerp a b (.fin 1)) = .fin 0 := by
  cases a <;> cases b <;>
    simp_all [safe, isFiniteNum, lerp, jsub, jadd, jneg, jmul]

/-- C4 (counterexample): in the cited variant a bracketing sample can hold
NaN (the loader applies no `|| 0`), and `safe` runs after the
interpolation, not before: with A = 2 and B = NaN the sample at fraction 0
is `safe(2 + (NaN - 2) * 0) = safe(NaN) = 0`, not A's value 2. -/
theorem sampleField_not_A_at_zero :
    [JVal.fin 2, JVal.nan].getD 0 .nan = JVal.fin 2 ∧
    sampleField [JVal.fin 2, JVal.nan] 0 (.fin 0) = .fin 0 ∧
    sampleField [JVal.fin 2, JVal.nan] 0 (.fin 0) ≠ [JVal.fin 2, JVal.nan].getD 0 .nan := by
  refine ⟨rfl, rfl, ?_⟩
  intro hcon
  rw [show sampleField [JVal.fin 2, JVal.nan] 0 (.fin 0) = .fin 0 from rfl,
    show [JVal.fin 2, JVal.nan].getD 0 .nan = JVal.fin 2 from rfl] at hcon
  exact absurd (JVal.fin.inj hcon) (by norm_num)

/-- C4 (amended): when both bracketing samples are finite, sampling at
fraction 0 returns exactly sample A's value and at fraction 1 exactly
sample B's value; at fraction 0.5 with A = 2, B = 4 it returns 3; when a
bracketing sample is non-finite the interpolant is non-finite and the
`safe` wrapper (applied after interpolation, not before) makes the sample
0 at fractions 0 and 1; and at the final trial of a series (where the
bracketing samples coincide) the sample is constantly the safe-coerced
value of A for every finite fraction. -/
theorem sampleField_spec :
    (∀ (current : List JVal) (i : ℕ) (a b : ℚ),
      current.getD i .nan = .fin a →
      current.getD (min (i + 1) (current.length - 1)) .nan = .fin b →
      sampleField current i (.fin 0) = .fin a ∧
      sampleField current i (.fin 1) = .fin b) ∧
    sampleField [.fin 2, .fin 4] 0 (.fin 0.5) = .fin 3 ∧
    (∀ (current : List JVal) (i : ℕ),
      isFiniteNum (current.getD i .nan) = false ∨
        isFiniteNum (current.getD (min (i + 1) (current.length - 1)) .nan) = false →
      sampleField current i (.fin 0) = .fin 0 ∧ sampleField current i (.fin 1) = .fin 0) ∧
    (∀ (current : List JVal) (i : ℕ) (tt : ℚ), i = current.length - 1 →
      sampleField current i (.fin tt) = safe (current.getD i .nan)) := by
  refine ⟨?_, ?_, ?_, ?_⟩
  · intro current i a b ha hb
    constructor
    · simp only [sampleField, ha, hb, lerp_fin_fin_zero]
      simp [safe, isFiniteNum]
    · simp only [sampleField, ha, hb, lerp_fin_fin_one]
      simp [safe, isFiniteNum]
  · norm_num [sampleField, lerp, safe, isFiniteNum, jsub_fin, jmul_fin, jadd_fin]
  · intro current i h
    exact ⟨safe_lerp_nonfin_zero _ _ h, safe_lerp_nonfin_one _ _ h⟩
  · intro current i tt hi
    subst hi
    have hmin : min (current.length - 1 + 1) (current.length - 1) = current.length - 1 := by
      omega
    simp only [sampleField, hmin]
    cases hw : current.getD (current.length - 1) .nan <;>
      simp [safe, isFiniteNum, lerp, jsub, jadd, jneg, jmul]

/-- One loaded row, as built by the CSV `complete` callback (subject string,
trial number `t`, band powers, derived ratios, and the extended variant's
aperiodic slope and symmetry index). -/
structure Trial where
  subject : String
  t : ℚ
  alpha : ℚ
  beta : ℚ
  theta : ℚ
  delta : ℚ
  ADR : ℚ
  TAR : ℚ
  slope : ℚ
  bsi : ℚ
deriving DecidableEq

/-- The playback cursor: `subjectIndex` and `i` are the two position states,
`t` is `tRef.current` (the interpolation fraction), `playing` the play flag,
and `lastTs` is `lastTsRef.current` (0 is the unset sentinel). -/
structure State where
  subjectIndex : ℕ
  i : ℕ
  t : ℚ
  playing : Bool
  lastTs : ℚ
deriving DecidableEq

/-- The fixed step duration `msPerStep = 1200`. -/
def msPerStep : ℚ := 1200

/-- One scheduler frame, from the `tick` callback (identical in all four
variants): a no-op when paused; otherwise accumulate the interpolation
fraction from the elapsed time, clamped at 1, and on reaching 1 either
advance the trial, advance the subject (resetting the frame-timing
reference), or stop playing at the end of the dataset. -/
def tick {α : Type} (subjects : List (List α)) (s : State) (ts : ℚ) : State :=
  if !s.playing then s
  else
    let last := if s.lastTs = 0 then ts else s.lastTs
    let dt := ts - last
    let t1 := min 1 (s.t + dt / msPerStep)
    let current := subjects.getD s.subjectIndex []
    if 1 ≤ t1 then
      let lastIndex := current.length - 1
      if s.i < lastIndex then
        { s with i := min (s.i + 1) lastIndex, t := 0, lastTs := ts }
      else if s.subjectIndex < subjects.length - 1 then
        { s with subjectIndex := s.subjectIndex + 1, i := 0, t := 0, lastTs := 0 }
      else
        { s with playing := false, t := t1, lastTs := ts }
    else
      { s with t := t1, lastTs := ts }

/-- The play/pause button: toggle the flag and clear the timing reference. -/
def togglePlay (s : State) : State := { s with playing := !s.playing, lastTs := 0 }

/-- The reset button of the three variants that restart playback:
`setI(0); tRef.current = 0; lastTsRef.current = 0; setPlaying(true)`. -/
def resetCmd (s : State) : State := { s with i := 0, t := 0, lastTs := 0, playing := true }

/-- The reset button of the radar-only variant, which does NOT call
`setPlaying(true)`: `setI(0); tRef.current = 0; lastTsRef.current = 0`. -/
def resetCmdNoPlay (s : State) : State := { s with i := 0, t := 0, lastTs := 0 }

/-- The previous-subject button: cyclic decrement modulo the subject count
(computed in ℤ as in JavaScript), full cursor reset, play. -/
def prevSubject {α : Type} (subjects : List (List α)) (s : State) : State :=
  { s with
    subjectIndex := (((s.subjectIndex : ℤ) - 1 + subjects.length) % subjects.length).toNat,
    i := 0, t := 0, lastTs := 0, playing := true }

/-- The next-subject button: cyclic increment modulo the subject count,
full cursor reset, play. -/
def nextSubject {α : Type} (subjects : List (List α)) (s : State) : State :=
  { s with
    subjectIndex := (((s.subjectIndex : ℤ) + 1) % subjects.length).toNat,
    i := 0, t := 0, lastTs := 0, playing := true }

/-- A paused state is a fixed point of the tick callback. -/
theorem tick_not_playing {α : Type} (subjects : List (List α)) (s : State) (ts : ℚ)
    (h : s.playing = false) : tick subjects s ts = s := by
  simp [tick, h]

/-- Ticks leave a paused state unchanged, however many frames arrive. -/
theorem foldl_tick_not_playing {α : Type} (subjects : List (List α)) (s : State)
    (h : s.playing = false) (l : List ℚ) : List.foldl (tick subjects) s l = s := by
  induction l with
  | nil => rfl
  | cons x xs ih => rw [List.foldl_cons, tick_not_playing _ _ _ h]; exact ih

/-- C5 (confirmed): when the cursor is on the last trial of the last subject
and the interpolation fraction reaches 1 during a playing tick, the engine
stops playing (Finished = Paused) with the cursor unchanged, and every
subsequent tick leaves the whole state — in particular subject position,
trial position and interpolation fraction — unchanged. -/
theorem tick_dataset_end (subjects : List (List Trial)) (s : State) (ts : ℚ) (l : List ℚ)
    (hplay : s.playing = true)
    (hsubj : s.subjectIndex = subjects.length - 1)
    (hlast : s.i = (subjects.getD s.subjectIndex []).length - 1)
    (hreach : 1 ≤ s.t + (ts - (if s.lastTs = 0 then ts else s.lastTs)) / msPerStep) :
    (tick subjects s ts).playing = false ∧
    (tick subjects s ts).subjectIndex = s.subjectIndex ∧
    (tick subjects s ts).i = s.i ∧
    (tick subjects s ts).t = 1 ∧
    List.foldl (tick subjects) (tick subjects s ts) l = tick subjects s ts := by
  have ht1 : min 1 (s.t + (ts - (if s.lastTs = 0 then ts else s.lastTs)) / msPerStep) = 1 :=
    min_eq_left hreach
  have h2 : ¬ s.i < (subjects.getD s.subjectIndex []).length - 1 := by omega
  have h3 : ¬ s.subjectIndex < subjects.length - 1 := by omega
  have htick : tick subjects s ts = { s with playing := false, t := 1, lastTs := ts } := by
    rw [tick, hplay]
    simp only [Bool.not_true, Bool.false_eq_true, if_false, ht1, le_refl, if_true, h2, h3]
  refine ⟨by rw [htick], by rw [htick], by rw [htick], by rw [htick], ?_⟩
  have hp : (tick subjects s ts).playing = false := by rw [htick]
  exact foldl_tick_not_playing _ _ hp l

/-- C5 (witness): a one-subject, one-trial dataset at the end of playback. -/
theorem tick_dataset_end_witness :
    (tick [[(⟨"a", 0, 1, 1, 1, 1, 1, 1, 0, 0⟩ : Trial)]] ⟨0, 0, 1, true, 5⟩ 5).playing = false ∧
    (tick [[(⟨"a", 0, 1, 1, 1, 1, 1, 1, 0, 0⟩ : Trial)]] ⟨0, 0, 1, true, 5⟩ 5).subjectIndex =
      (⟨0, 0, 1, true, 5⟩ : State).subjectIndex ∧
    (tick [[(⟨"a", 0, 1, 1, 1, 1, 1, 1, 0, 0⟩ : Trial)]] ⟨0, 0, 1, true, 5⟩ 5).i =
      (⟨0, 0, 1, true, 5⟩ : State).i ∧
    (tick [[(⟨"a", 0, 1, 1, 1, 1, 1, 1, 0, 0⟩ : Trial)]] ⟨0, 0, 1, true, 5⟩ 5).t = 1 ∧
    List.foldl (tick [[(⟨"a", 0, 1, 1, 1, 1, 1, 1, 0, 0⟩ : Trial)]])
      (tick [[(⟨"a", 0, 1, 1, 1, 1, 1, 1, 0, 0⟩ : Trial)]] ⟨0, 0, 1, true, 5⟩ 5) [9, 13] =
      tick [[(⟨"a", 0, 1, 1, 1, 1, 1, 1, 0, 0⟩ : Trial)]] ⟨0, 0, 1, true, 5⟩ 5 :=
  tick_dataset_end [[⟨"a", 0, 1, 1, 1, 1, 1, 1, 0, 0⟩]] ⟨0, 0, 1, true, 5⟩ 5 [9, 13]
    rfl rfl rfl (by norm_num [msPerStep])

/-- C6 (counterexample): in the radar-only variant the reset button does not
set the state to Playing — applied to a concrete paused state it leaves the
play flag false. -/
theorem resetCmdNoPlay_leaves_paused :
    (resetCmdNoPlay ⟨0, 3, 1/2, false, 7⟩).playing ≠ true := by
  simp [resetCmdNoPlay]

/-- C6 (amended): every reset handler sets trialPosition to 0, the
interpolation fraction to 0 and clears the frame-timing reference; the three
restarting variants also set the state to Playing, while the radar-only
variant leaves the play flag unchanged.  The subject position is untouched
in both. -/
theorem resetCmd_spec (s : State) :
    (resetCmd s).i = 0 ∧ (resetCmd s).t = 0 ∧ (resetCmd s).lastTs = 0 ∧
    (resetCmd s).playing = true ∧ (resetCmd s).subjectIndex = s.subjectIndex ∧
    (resetCmdNoPlay s).i = 0 ∧ (resetCmdNoPlay s).t = 0 ∧ (resetCmdNoPlay s).lastTs = 0 ∧
    (resetCmdNoPlay s).playing = s.playing ∧ (resetCmdNoPlay s).subjectIndex = s.subjectIndex :=
  ⟨rfl, rfl, rfl, rfl, rfl, rfl, rfl, rfl, rfl, rfl⟩

/-- The cursor bounds invariant: subject position within the dataset, trial
position within the active subject's series, interpolation fraction in
`[0, 1]` (positions are naturals, so non-negativity is by type). -/
def CursorInv (subjects : List (List Trial)) (s : State) : Prop :=
  s.subjectIndex < subjects.length ∧
  s.i < (subjects.getD s.subjectIndex []).length ∧
  0 ≤ s.t ∧ s.t ≤ 1

/-- C10 (confirmed): for a loaded dataset in which every subject series is
non-empty, every playing/paused tick with non-negative elapsed time and every
user command (play/pause toggle, both reset variants, previous subject, next
subject) preserves the cursor bounds invariant. -/
theorem cursor_inv_preserved (subjects : List (List Trial)) (s : State) (ts : ℚ)
    (hg : ∀ g ∈ subjects, g ≠ [])
    (hinv : CursorInv subjects s)
    (hts : s.lastTs ≤ ts) :
    CursorInv subjects (tick subjects s ts) ∧
    CursorInv subjects (togglePlay s) ∧
    CursorInv subjects (resetCmd s) ∧
    CursorInv subjects (resetCmdNoPlay s) ∧
    CursorInv subjects (prevSubject subjects s) ∧
    CursorInv subjects (nextSubject subjects s) := by
  obtain ⟨hsi, hi, ht0, ht1le⟩ := hinv
  have hlen : 0 < subjects.length := lt_of_le_of_lt (Nat.zero_le _) hsi
  have hglen : ∀ idx : ℕ, idx < subjects.length → 0 < (subjects.getD idx []).length := by
    intro idx hidx
    rw [List.getD_eq_getElem _ _ hidx]
    exact List.length_pos.mpr (hg _ (List.getElem_mem hidx))
  have hcur : 0 < (subjects.getD s.subjectIndex []).length := hglen _ hsi
  have hnz : (0 : ℤ) < (subjects.length : ℤ) := by exact_mod_cast hlen
  refine ⟨?_, ⟨hsi, hi, ht0, ht1le⟩, ⟨hsi, hcur, le_refl 0, (by norm_num : (0:ℚ) ≤ 1)⟩,
    ⟨hsi, hcur, le_refl 0, (by norm_num : (0:ℚ) ≤ 1)⟩, ?_, ?_⟩
  · -- tick
    by_cases hp : s.playing = true
    · rw [tick, hp]
      simp only [Bool.not_true, Bool.false_eq_true, if_false]
      set L : ℚ := if s.lastTs = 0 then ts else s.lastTs with hL
      have hdt : 0 ≤ ts - L := by
        rw [hL]
        split_ifs with h0
        · simp
        · linarith
      have hsum : 0 ≤ s.t + (ts - L) / msPerStep := by
        have : 0 ≤ (ts - L) / msPerStep := div_nonneg hdt (by norm_num [msPerStep])
        linarith
      have ht1a : 0 ≤ min 1 (s.t + (ts - L) / msPerStep) := le_min (by norm_num) hsum
      have ht1b : min 1 (s.t + (ts - L) / msPerStep) ≤ 1 := min_le_left _ _
      split_ifs with hge hlt hsub
      · refine ⟨hsi, ?_, le_refl 0, (by norm_num : (0:ℚ) ≤ 1)⟩
        show min (s.i + 1) ((subjects.getD s.subjectIndex []).length - 1) <
          (subjects.getD s.subjectIndex []).length
        have hmr : min (s.i + 1) ((subjects.getD s.subjectIndex []).length - 1) ≤
            (subjects.getD s.subjectIndex []).length - 1 := min_le_right _ _
        omega
      · refine ⟨?_, ?_, le_refl 0, (by norm_num : (0:ℚ) ≤ 1)⟩
        · show s.subjectIndex + 1 < subjects.length
          omega
        · show 0 < (subjects.getD (s.subjectIndex + 1) []).length
          exact hglen _ (by omega)
      · exact ⟨hsi, hi, ht1a, ht1b⟩
      · exact ⟨hsi, hi, ht1a, ht1b⟩
    · have hp2 : s.playing = false := by
        cases h : s.playing
        · rfl
        · exact absurd h hp
      rw [tick_not_playing _ _ _ hp2]
      exact ⟨hsi, hi, ht0, ht1le⟩
  · -- prevSubject
    have hmn : 0 ≤ ((s.subjectIndex : ℤ) - 1 + subjects.length) % subjects.length :=
      Int.emod_nonneg _ (ne_of_gt hnz)
    have hml : ((s.subjectIndex : ℤ) - 1 + subjects.length) % subjects.length <
        subjects.length := Int.emod_lt_of_pos _ hnz
    have hidx : (((s.subjectIndex : ℤ) - 1 + subjects.length) % subjects.length).toNat <
        subjects.length := by omega
    exact ⟨hidx, hglen _ hidx, le_refl 0, (by norm_num : (0:ℚ) ≤ 1)⟩
  · -- nextSubject
    have hmn : 0 ≤ ((s.subjectIndex : ℤ) + 1) % subjects.length :=
      Int.emod_nonneg _ (ne_of_gt hnz)
    have hml : ((s.subjectIndex : ℤ) + 1) % subjects.length < subjects.length :=
      Int.emod_lt_of_pos _ hnz
    have hidx : (((s.subjectIndex : ℤ) + 1) % subjects.length).toNat < subjects.length := by
      omega
    exact ⟨hidx, hglen _ hidx, le_refl 0, (by norm_num : (0:ℚ) ≤ 1)⟩

/-- C10 (witness): the invariant preservation theorem at a concrete
one-subject dataset and the initial playing state. -/
theorem cursor_inv_preserved_witness :
    CursorInv [[(⟨"a", 0, 1, 1, 1, 1, 1, 1, 0, 0⟩ : Trial)]]
      (tick [[(⟨"a", 0, 1, 1, 1, 1, 1, 1, 0, 0⟩ : Trial)]] ⟨0, 0, 0, true, 0⟩ 100) ∧
    CursorInv [[(⟨"a", 0, 1, 1, 1, 1, 1, 1, 0, 0⟩ : Trial)]] (togglePlay ⟨0, 0, 0, true, 0⟩) ∧
    CursorInv [[(⟨"a", 0, 1, 1, 1, 1, 1, 1, 0, 0⟩ : Trial)]] (resetCmd ⟨0, 0, 0, true, 0⟩) ∧
    CursorInv [[(⟨"a", 0, 1, 1, 1, 1, 1, 1, 0, 0⟩ : Trial)]] (resetCmdNoPlay ⟨0, 0, 0, true, 0⟩) ∧
    CursorInv [[(⟨"a", 0, 1, 1, 1, 1, 1, 1, 0, 0⟩ : Trial)]]
      (prevSubject [[(⟨"a", 0, 1, 1, 1, 1, 1, 1, 0, 0⟩ : Trial)]] ⟨0, 0, 0, true, 0⟩) ∧
    CursorInv [[(⟨"a", 0, 1, 1, 1, 1, 1, 1, 0, 0⟩ : Trial)]]
      (nextSubject [[(⟨"a", 0, 1, 1, 1, 1, 1, 1, 0, 0⟩ : Trial)]] ⟨0, 0, 0, true, 0⟩) :=
  cursor_inv_preserved [[⟨"a", 0, 1, 1, 1, 1, 1, 1, 0, 0⟩]] ⟨0, 0, 0, true, 0⟩ 100
    (by simp) ⟨by simp, by simp [List.getD], le_refl 0, by norm_num⟩ (by norm_num)

/-- One parsed CSV row as the filter sees it: the two key columns, each
either missing (null/undefined) or a number. -/
structure RawRow where
  subject_number : Option ℚ
  trial_number : Option ℚ
deriving DecidableEq

/-- The row filter of three variants:
`r["trial_number"] != null && r["subject_number"] != null`. -/
def keepRow (r : RawRow) : Bool := r.trial_number.isSome && r.subject_number.isSome

/-- JavaScript truthiness of a (possibly missing) number: null, undefined
and 0 are falsy. -/
def truthyNum : Option ℚ → Bool
  | none => false
  | some v => decide (v ≠ 0)

/-- The row filter of the radar-only variant:
`r["trial_number"] && r["subject_number"]` (truthiness, not null test). -/
def keepRowTruthy (r : RawRow) : Bool := truthyNum r.trial_number && truthyNum r.subject_number

/-- C7 (counterexample): a row with subject_number 1 and trial_number 0 has
both fields present, yet the radar-only variant's truthiness filter discards
it (0 is falsy). -/
theorem keepRowTruthy_drops_zero_trial :
    keepRowTruthy ⟨some 1, some 0⟩ = false ∧
    (⟨some 1, some 0⟩ : RawRow).subject_number.isSome = true ∧
    (⟨some 1, some 0⟩ : RawRow).trial_number.isSome = true := by
  refine ⟨?_, rfl, rfl⟩
  norm_num [keepRowTruthy, truthyNum]

/-- C7 (amended): in three of the four variants a row is retained exactly
when both `subject_number` and `trial_number` are present (a zero
trial_number is retained); in the radar-only variant the filter tests
truthiness, so a row whose trial_number or subject_number is 0 is also
discarded. -/
theorem keepRow_spec (r : RawRow) :
    (keepRow r = true ↔ r.subject_number ≠ none ∧ r.trial_number ≠ none) ∧
    (keepRowTruthy r = true ↔
      (∃ v, r.trial_number = some v ∧ v ≠ 0) ∧
      (∃ v, r.subject_number = some v ∧ v ≠ 0)) ∧
    keepRow ⟨some 1, some 0⟩ = true := by
  obtain ⟨sn, tn⟩ := r
  refine ⟨?_, ?_, rfl⟩
  · cases sn <;> cases tn <;> simp [keepRow]
  · cases sn <;> cases tn <;> simp [keepRowTruthy, truthyNum]

/-- From the source's `subjectMinMax(rows, key)`: minimum and maximum of the
key's values over the given rows (the source's `.filter(finite)` is the
identity here because loaded rows hold finite numbers), `(0, 1)` when empty,
and a degenerate range is widened by `eps = Math.max(0.001, |min| * 0.05)`. -/
def subjectMinMax (rows : List Trial) (key : Trial → ℚ) : ℚ × ℚ :=
  match rows.map key with
  | [] => (0, 1)
  | v :: vs =>
    let mn := vs.foldl min v
    let mx := vs.foldl max v
    if mn = mx then
      let eps := max 0.001 (|mn| * 0.05)
      (mn - eps, mx + eps)
    else (mn, mx)

/-- From the extended variant's load callback: the dataset-global ADR
range `adrMin = Math.min(...adrs, 0)`, `adrMax = Math.max(...adrs, 1)`
(the spread minimum with an extra argument is a fold over the list). -/
def adrStats (rows : List Trial) : ℚ × ℚ :=
  ((rows.map (fun r => r.ADR)).foldl min 0, (rows.map (fun r => r.ADR)).foldl max 1)

/-- The `(min, max)` passed to the ADR gauge in the arrow_no_yellow variant
while subject `subjectIndex` is active: `subjectMinMax(current, "ADR")`. -/
def arrowAdrRange (subjects : List (List Trial)) (subjectIndex : ℕ) : ℚ × ℚ :=
  subjectMinMax (subjects.getD subjectIndex []) (fun r => r.ADR)

/-- The `(min, max)` passed to the ADR gauge in the extended (part_000)
variant while subject `subjectIndex` is active: `stats.adrMin`/`stats.adrMax`,
which ignore the active subject entirely. -/
def extendedAdrRange (rows : List Trial) (subjectIndex : ℕ) : ℚ × ℚ := adrStats rows

/-- C8 (counterexample): two subjects with different ADR value sets (2 versus
5).  In the extended variant the gauge range while either subject is active
is the same dataset-global pair, although the per-subject `subjectMinMax`
ranges differ — the range used is not derived from the active subject's own
ratio values and does not change when the subject changes. -/
theorem extendedAdrRange_not_per_subject :
    extendedAdrRange [⟨"a", 0, 0, 0, 0, 0, 2, 0, 0, 0⟩, ⟨"b", 0, 0, 0, 0, 0, 5, 0, 0, 0⟩] 0 =
      extendedAdrRange [⟨"a", 0, 0, 0, 0, 0, 2, 0, 0, 0⟩, ⟨"b", 0, 0, 0, 0, 0, 5, 0, 0, 0⟩] 1 ∧
    List.map (fun r => r.ADR) [(⟨"a", 0, 0, 0, 0, 0, 2, 0, 0, 0⟩ : Trial)] ≠
      List.map (fun r => r.ADR) [(⟨"b", 0, 0, 0, 0, 0, 5, 0, 0, 0⟩ : Trial)] ∧
    arrowAdrRange [[⟨"a", 0, 0, 0, 0, 0, 2, 0, 0, 0⟩], [⟨"b", 0, 0, 0, 0, 0, 5, 0, 0, 0⟩]] 0 ≠
      arrowAdrRange [[⟨"a", 0, 0, 0, 0, 0, 2, 0, 0, 0⟩], [⟨"b", 0, 0, 0, 0, 0, 5, 0, 0, 0⟩]] 1 := by
  refine ⟨rfl, ?_, ?_⟩
  · norm_num
  · intro hcon
    rw [show arrowAdrRange [[⟨"a", 0, 0, 0, 0, 0, 2, 0, 0, 0⟩],
        [⟨"b", 0, 0, 0, 0, 0, 5, 0, 0, 0⟩]] 0 =
        subjectMinMax [⟨"a", 0, 0, 0, 0, 0, 2, 0, 0, 0⟩] (fun r => r.ADR) from rfl,
      show arrowAdrRange [[⟨"a", 0, 0, 0, 0, 0, 2, 0, 0, 0⟩],
        [⟨"b", 0, 0, 0, 0, 0, 5, 0, 0, 0⟩]] 1 =
        subjectMinMax [⟨"b", 0, 0, 0, 0, 0, 5, 0, 0, 0⟩] (fun r => r.ADR) from rfl] at hcon
    simp only [subjectMinMax, List.map, List.foldl, Prod.mk.injEq] at hcon
    norm_num at hcon

/-- C8 (amended): in the arrow_no_yellow variant the gauge range is
`subjectMinMax` of the active subject's own ratio values, so it is
recomputed from those values whenever the active subject changes; in the
extended variant the gauge range is the dataset-global stats pair and is
identical whichever subject is active. -/
theorem gaugeRange_spec :
    (∀ (subjects : List (List Trial)) (i : ℕ),
      arrowAdrRange subjects i = subjectMinMax (subjects.getD i []) (fun r => r.ADR)) ∧
    (∀ (rows : List Trial) (i j : ℕ), extendedAdrRange rows i = extendedAdrRange rows j) ∧
    arrowAdrRange [[⟨"a", 0, 0, 0, 0, 0, 2, 0, 0, 0⟩], [⟨"b", 0, 0, 0, 0, 0, 5, 0, 0, 0⟩]] 0 ≠
      arrowAdrRange [[⟨"a", 0, 0, 0, 0, 0, 2, 0, 0, 0⟩], [⟨"b", 0, 0, 0, 0, 0, 5, 0, 0, 0⟩]] 1 := by
  refine ⟨fun _ _ => rfl, fun _ _ _ => rfl, ?_⟩
  intro hcon
  rw [show arrowAdrRange [[⟨"a", 0, 0, 0, 0, 0, 2, 0, 0, 0⟩],
      [⟨"b", 0, 0, 0, 0, 0, 5, 0, 0, 0⟩]] 0 =
      subjectMinMax [⟨"a", 0, 0, 0, 0, 0, 2, 0, 0, 0⟩] (fun r => r.ADR) from rfl,
    show arrowAdrRange [[⟨"a", 0, 0, 0, 0, 0, 2, 0, 0, 0⟩],
      [⟨"b", 0, 0, 0, 0, 0, 5, 0, 0, 0⟩]] 1 =
      subjectMinMax [⟨"b", 0, 0, 0, 0, 0, 5, 0, 0, 0⟩] (fun r => r.ADR) from rfl] at hcon
  simp only [subjectMinMax, List.map, List.foldl, Prod.mk.injEq] at hcon
  norm_num at hcon

/-- The three trend-alert levels of the aperiodic-slope chart. -/
inductive AlertLevel where
  | HIGH : AlertLevel
  | MEDIUM : AlertLevel
  | NORMAL : AlertLevel
deriving DecidableEq

/-- From `AperiodicSlopeChart`: `recentWindow = 5`;
`recentSlopes = slopes.slice(Math.max(0, currentIndex - recentWindow),
currentIndex + 1)` (truncated ℕ subtraction is exactly the `Math.max(0, ·)`);
`slopeChange = |last - first| / recentSlopes.length` when more than one
sample, else 0; thresholds 0.3 and 0.15. -/
def classifyTrendAlert (slopes : List ℚ) (currentIndex : ℕ) : AlertLevel :=
  let start := currentIndex - 5
  let recentSlopes := (slopes.drop start).take (currentIndex + 1 - start)
  let slopeChange : ℚ :=
    if recentSlopes.length > 1 then
      |recentSlopes.getLastD 0 - recentSlopes.headD 0| / recentSlopes.length
    else 0
  if slopeChange > 0.3 then .HIGH
  else if slopeChange > 0.15 then .MEDIUM
  else .NORMAL

/-- C9 (confirmed): the classification looks at the up-to-6 slope values
ending at the current index (the slice is the last at-most-6 entries of the
first `currentIndex + 1` slopes, and never holds more than 6); with fewer
than 2 samples the change is 0 and the level NORMAL; in general the level is
the 0.3 / 0.15 threshold classification of `|last - first| / count` over
that window; 6 identical slopes give NORMAL, and a jump of 2.0 across 5
samples gives HIGH. -/
theorem classifyTrendAlert_spec :
    (∀ (slopes : List ℚ) (idx : ℕ),
      (slopes.drop (idx - 5)).take (idx + 1 - (idx - 5)) =
        (slopes.take (idx + 1)).drop (idx - 5) ∧
      ((slopes.take (idx + 1)).drop (idx - 5)).length ≤ 6) ∧
    (∀ (slopes : List ℚ) (idx : ℕ),
      classifyTrendAlert slopes idx =
        (let recent := (slopes.take (idx + 1)).drop (idx - 5)
         let change : ℚ := if recent.length > 1 then
             |recent.getLastD 0 - recent.headD 0| / recent.length else 0
         if change > 0.3 then .HIGH else if change > 0.15 then .MEDIUM else .NORMAL)) ∧
    (∀ (slopes : List ℚ) (idx : ℕ),
      ((slopes.take (idx + 1)).drop (idx - 5)).length < 2 →
        classifyTrendAlert slopes idx = .NORMAL) ∧
    (∀ c : ℚ, classifyTrendAlert (List.replicate 6 c) 5 = .NORMAL) ∧
    classifyTrendAlert [0, 0.5, 1, 1.5, 2] 4 = .HIGH := by
  have hwin : ∀ (slopes : List ℚ) (idx : ℕ),
      (slopes.drop (idx - 5)).take (idx + 1 - (idx - 5)) =
        (slopes.take (idx + 1)).drop (idx - 5) := by
    intro slopes idx
    have hn : (idx - 5) + (idx + 1 - (idx - 5)) = idx + 1 := by omega
    rw [List.take_drop, hn]
  have hlen : ∀ (slopes : List ℚ) (idx : ℕ),
      ((slopes.take (idx + 1)).drop (idx - 5)).length ≤ 6 := by
    intro slopes idx
    rw [← hwin]
    refine le_trans (List.length_take_le _ _) ?_
    omega
  have heq : ∀ (slopes : List ℚ) (idx : ℕ),
      classifyTrendAlert slopes idx =
        (let recent := (slopes.take (idx + 1)).drop (idx - 5)
         let change : ℚ := if recent.length > 1 then
             |recent.getLastD 0 - recent.headD 0| / recent.length else 0
         if change > 0.3 then .HIGH else if change > 0.15 then .MEDIUM else .NORMAL) := by
    intro slopes idx
    simp only [classifyTrendAlert, hwin]
  refine ⟨fun slopes idx => ⟨hwin slopes idx, hlen slopes idx⟩, heq, ?_, ?_, ?_⟩
  · intro slopes idx hshort
    have hw := hwin slopes idx
    simp only [classifyTrendAlert]
    rw [hw, if_neg (by omega : ¬ ((slopes.take (idx + 1)).drop (idx - 5)).length > 1)]
    norm_num
  · intro c
    have hrep : (List.replicate 6 c : List ℚ) = [c, c, c, c, c, c] := rfl
    simp only [classifyTrendAlert, hrep]
    norm_num
  · simp only [classifyTrendAlert]
    norm_num

/-- C4 (witness): the finite-brackets clause of the interpolation theorem
at a concrete two-trial series. -/
theorem sampleField_spec_witness :
    sampleField [JVal.fin 5, JVal.fin 7] 0 (.fin 0) = .fin 5 ∧
    sampleField [JVal.fin 5, JVal.fin 7] 0 (.fin 1) = .fin 7 :=
  sampleField_spec.1 [JVal.fin 5, JVal.fin 7] 0 5 7 rfl rfl

/-- C9 (witness): the fewer-than-two-samples clause at a one-sample history. -/
theorem classifyTrendAlert_spec_witness : classifyTrendAlert [1] 0 = .NORMAL :=
  classifyTrendAlert_spec.2.2.1 [1] 0 (by simp)
